import Mathlib

/-!
Verification of the XIAO nRF52840 Sense data-logger receiver
(`src/receiver/src/xiao_nrf52840_sense_receiver/`).

The development shallowly embeds the Python source:
* `DataBuffer` (ble_receiver.py) — a thread-safe ring buffer over a
  `deque(maxlen=max_size)` with monotonic `write_index` / `base_index`
  tracking.  Mutable state becomes explicit state passing; methods that do
  not assign return the unchanged state as their second component.
* `ImuRow.parse_csv` (ble_receiver.py) and
  `RecordFileWriter._format_csv_row` (data_recorder.py) — CSV parsing and
  fixed-precision formatting.  Python `str` is modelled as `List Char`,
  Python `float` as `ℚ`.
* `_parse_line_from_buffer` / `_create_notification_handler`
  (ble_receiver.py) — the frame assembler.
* `collect_data_with_retry` (oscilloscope/app.py) — the retry supervisor.
* `_match_device` / `find_device` (ble_receiver.py) — device resolution.
-/

/-- One IMU sample (`ImuRow` in ble_receiver.py).  `millis : int` becomes
`ℤ`; the eight Python-`float` sensor fields become `ℚ` (IEEE doubles are
modelled by rationals; all values exercised here are exactly representable
in both). -/
structure ImuRow where
  millis : ℤ
  ax : ℚ
  ay : ℚ
  az : ℚ
  gx : ℚ
  gy : ℚ
  gz : ℚ
  tempC : ℚ
  audioRMS : ℚ
deriving DecidableEq, Repr

/-! ## DataBuffer (ble_receiver.py, class DataBuffer)

The Python class holds `_max_size`, `_buffer : deque(maxlen=max_size)`,
`_write_index`, `_base_index` (plus `_stats`, whose fields are derived from
wall-clock time and are outside every claim, so they are not modelled).
The buffer is generic in the element type: the claims about it do not
depend on the payload. -/

structure DataBuffer (α : Type) where
  max_size : Nat
  buffer : List α
  write_index : Nat
  base_index : Nat
deriving DecidableEq, Repr

namespace DataBuffer

/-- `DataBuffer.__init__(max_size)`: empty deque, both indices zero. -/
def mkBuffer (max_size : Nat) : DataBuffer α :=
  { max_size := max_size, buffer := [], write_index := 0, base_index := 0 }

/-- `deque(maxlen=m).append(x)`: append and keep only the last `m`
elements (for `m = 0` the deque stays empty, as in Python). -/
def dequeAppend (m : Nat) (l : List α) (x : α) : List α :=
  (l ++ [x]).drop ((l ++ [x]).length - m)

/-- `DataBuffer.append(row)`: when the deque is full the oldest element is
about to be dropped, so `base_index` advances; the deque append itself is
`dequeAppend`; `write_index` always advances. -/
def append (b : DataBuffer α) (row : α) : DataBuffer α :=
  { max_size := b.max_size
    buffer := dequeAppend b.max_size b.buffer row
    write_index := b.write_index + 1
    base_index := if b.buffer.length = b.max_size then b.base_index + 1 else b.base_index }

/-- Python `list(buf)[-count:]` (the slice used by `get_recent`): for
`count = 0` the slice `[-0:] = [0:]` is the whole list; otherwise it is
the last `count` elements. -/
def pyLastSlice (l : List α) (count : Nat) : List α :=
  if count = 0 then l else l.drop (l.length - count)

/-- `DataBuffer.get_recent(count)`: `list(buf)[-count:]` when
`count <= len(buf)`, else the whole contents.  The method performs no
assignment, so the returned post-state is the input state. -/
def get_recent (b : DataBuffer α) (count : Nat) : List α × DataBuffer α :=
  (if count ≤ b.buffer.length then pyLastSlice b.buffer count else b.buffer, b)

/-- `DataBuffer.get_since_index(last_index)`.  Mirrors the Python body:
`dropped := last_index < base_index`; otherwise
`start_offset = max(0, last_index - base_index)` (realised by `Nat`
subtraction), `end_offset = write_index - base_index`, empty result when
`start_offset >= len(buffer)`, else the slice
`list(buf)[start_offset:end_offset]`.  No assignment happens, so the
post-state is the input state. -/
def get_since_index (b : DataBuffer α) (last_index : Nat) :
    (List α × Nat × Bool) × DataBuffer α :=
  if last_index < b.base_index then
    ((b.buffer, b.write_index, true), b)
  else
    let start_offset := last_index - b.base_index
    let end_offset := b.write_index - b.base_index
    if b.buffer.length ≤ start_offset then (([], b.write_index, false), b)
    else (((b.buffer.take end_offset).drop start_offset, b.write_index, false), b)

/-- `DataBuffer.clear()`: empties the deque and resets both indices. -/
def clear (b : DataBuffer α) : DataBuffer α :=
  { max_size := b.max_size, buffer := [], write_index := 0, base_index := 0 }

/-- `DataBuffer.current_write_index` property. -/
def current_write_index (b : DataBuffer α) : Nat :=
  b.write_index

/-- The spec's ring-buffer invariant (§3):
`writeIndex − baseIndex == currentOccupancy ≤ N`, stated subtraction-free. -/
def Inv (b : DataBuffer α) : Prop :=
  b.base_index + b.buffer.length = b.write_index ∧ b.buffer.length ≤ b.max_size

instance (b : DataBuffer α) : Decidable (Inv b) := by
  unfold Inv; infer_instance

/-- Replay a list of appends (arrival order) onto a buffer state. -/
def appendAll (b : DataBuffer α) (rows : List α) : DataBuffer α :=
  rows.foldl append b

/-- The buffer state reached from a fresh buffer of capacity `m` after
appending `hist` in order.  Every state the Python program ever exhibits
is of this form: states arise only from `__init__`, `append` and `clear`,
and `clear` re-establishes `ofHistory m []`. -/
def ofHistory (m : Nat) (hist : List α) : DataBuffer α :=
  appendAll (mkBuffer m) hist

theorem appendAll_append (b : DataBuffer α) (rows : List α) (x : α) :
    appendAll b (rows ++ [x]) = append (appendAll b rows) x := by
  simp [appendAll]

theorem ofHistory_snoc (m : Nat) (hist : List α) (x : α) :
    (ofHistory m (hist ++ [x]) : DataBuffer α) = append (ofHistory m hist) x :=
  appendAll_append _ _ _

/-- Characterisation of reachable states: after appending `hist` to a
fresh capacity-`m` buffer, the write index is the total count of appends,
the base index is the count of evicted records, and the deque holds the
most recent `min hist.length m` records. -/
theorem ofHistory_spec (m : Nat) (hist : List α) :
    (ofHistory m hist : DataBuffer α).max_size = m ∧
    (ofHistory m hist : DataBuffer α).write_index = hist.length ∧
    (ofHistory m hist : DataBuffer α).base_index = hist.length - m ∧
    (ofHistory m hist : DataBuffer α).buffer = hist.drop (hist.length - m) := by
  induction hist using List.reverseRecOn with
  | nil => simp [ofHistory, appendAll, mkBuffer]
  | append_singleton hist x ih =>
    obtain ⟨hm, hw, hb, hbuf⟩ := ih
    have hlen : (ofHistory m hist : DataBuffer α).buffer.length =
        hist.length - (hist.length - m) := by rw [hbuf]; simp
    rw [ofHistory_snoc]
    refine ⟨by simp [append, hm], by simp [append, hw], ?_, ?_⟩
    · simp only [append, hlen, hm, hb, List.length_append, List.length_cons,
        List.length_nil]
      split_ifs with hcond <;> omega
    · simp only [append, hm, hbuf, dequeAppend]
      have h1 : List.drop (hist.length - m) hist ++ [x] =
          List.drop (hist.length - m) (hist ++ [x]) :=
        (List.drop_append_of_le_length (Nat.sub_le hist.length m)).symm
      rw [h1, List.drop_drop]
      congr 1
      simp only [List.length_append, List.length_drop, List.length_cons,
        List.length_nil]
      omega

theorem ofHistory_write_index (m : Nat) (hist : List α) :
    (ofHistory m hist : DataBuffer α).write_index = hist.length :=
  (ofHistory_spec m hist).2.1

theorem ofHistory_base_index (m : Nat) (hist : List α) :
    (ofHistory m hist : DataBuffer α).base_index = hist.length - m :=
  (ofHistory_spec m hist).2.2.1

theorem ofHistory_buffer (m : Nat) (hist : List α) :
    (ofHistory m hist : DataBuffer α).buffer = hist.drop (hist.length - m) :=
  (ofHistory_spec m hist).2.2.2

end DataBuffer

open DataBuffer in
/-- C6: the ring-buffer invariant `writeIndex − baseIndex == occupancy ≤ N`
(stated as `base_index + occupancy = write_index ∧ occupancy ≤ max_size`)
holds in the initial state and is preserved by every operation: `append`
preserves it, `get_recent` and `get_since_index` leave the state unchanged,
and `clear` re-establishes it, resetting both indices and the occupancy to
zero. -/
theorem c6_buffer_invariant :
    ∀ (m : Nat) (b : DataBuffer Nat) (x n i : Nat),
      DataBuffer.Inv (mkBuffer m : DataBuffer Nat) ∧
      (DataBuffer.Inv b → DataBuffer.Inv (b.append x)) ∧
      (b.get_recent n).2 = b ∧
      (b.get_since_index i).2 = b ∧
      DataBuffer.Inv b.clear ∧ b.clear.write_index = 0 ∧ b.clear.base_index = 0 ∧
      b.clear.buffer = [] := by
  intro m b x n i
  refine ⟨by simp [DataBuffer.Inv, mkBuffer], ?_, rfl, ?_, by simp [DataBuffer.Inv, clear], rfl, rfl, rfl⟩
  · rintro ⟨h1, h2⟩
    constructor
    · simp only [append, dequeAppend, List.length_drop, List.length_append,
        List.length_cons, List.length_nil]
      split_ifs with h <;> omega
    · simp only [append, dequeAppend, List.length_drop, List.length_append,
        List.length_cons, List.length_nil]
      omega
  · simp only [get_since_index]
    split_ifs <;> rfl

open DataBuffer in
/-- Witness for C6 at a concrete reachable state. -/
theorem c6_buffer_invariant_witness :
    DataBuffer.Inv (ofHistory 2 [1, 2, 3] : DataBuffer Nat) ∧
    DataBuffer.Inv ((ofHistory 2 [1, 2, 3] : DataBuffer Nat).append 7) :=
  ⟨by decide, (c6_buffer_invariant 2 (ofHistory 2 [1, 2, 3]) 7 0 0).2.1 (by decide)⟩

open DataBuffer in
/-- On a reachable state, `get_since_index j` with `j` at or above the
base index returns exactly the suffix of the history from position `j`,
the current write index, and no data loss. -/
theorem get_since_ofHistory_of_ge {α : Type} (m : Nat) (hist : List α)
    {j : Nat} (hj : (ofHistory m hist : DataBuffer α).base_index ≤ j) :
    ((ofHistory m hist : DataBuffer α).get_since_index j).1 =
      (hist.drop j, hist.length, false) := by
  obtain ⟨hm, hw, hb, hbuf⟩ := ofHistory_spec m hist (α := α)
  have hblen : (ofHistory m hist : DataBuffer α).buffer.length =
      hist.length - (hist.length - m) := by rw [hbuf]; simp
  rw [hb] at hj
  simp only [get_since_index, hb, hw, hblen, if_neg (Nat.not_lt.mpr hj)]
  split_ifs with hcase
  · have : hist.length ≤ j := by omega
    rw [List.drop_eq_nil_of_le this]
  · have htake : (ofHistory m hist : DataBuffer α).buffer.take
        (hist.length - (hist.length - m)) = (ofHistory m hist : DataBuffer α).buffer :=
      List.take_of_length_le (le_of_eq hblen)
    rw [htake, hbuf, List.drop_drop]
    have : hist.length - m + (j - (hist.length - m)) = j := by omega
    rw [this]

open DataBuffer in
/-- C1: on every reachable buffer state (`ofHistory m hist`, where `hist`
is the arrival-ordered list of all appends), `get_since_index lastIndex`
returns (a) the entire current contents, the current write index and
`dataLost = true` when `lastIndex < base_index`; (b) exactly the records
appended after position `lastIndex`, in arrival order (`hist.drop
lastIndex`), the current write index and `dataLost = false` when
`lastIndex ≥ base_index`; and (c) an empty list with `dataLost = false`
when called with the current write index.  Exactness of (b) is what makes
consumption gap-free: a caller resuming from the returned `nextIndex`
receives each record exactly once absent a reported loss. -/
theorem c1_get_since_index_exact :
    ∀ (m : Nat) (hist : List Nat) (lastIndex : Nat),
      (lastIndex < (ofHistory m hist : DataBuffer Nat).base_index →
        ((ofHistory m hist : DataBuffer Nat).get_since_index lastIndex).1 =
          ((ofHistory m hist : DataBuffer Nat).buffer, hist.length, true)) ∧
      ((ofHistory m hist : DataBuffer Nat).base_index ≤ lastIndex →
        ((ofHistory m hist : DataBuffer Nat).get_since_index lastIndex).1 =
          (hist.drop lastIndex, hist.length, false)) ∧
      ((ofHistory m hist : DataBuffer Nat).get_since_index
          (ofHistory m hist : DataBuffer Nat).current_write_index).1 =
        ([], hist.length, false) := by
  intro m hist lastIndex
  obtain ⟨hm, hw, hb, hbuf⟩ := ofHistory_spec m hist (α := Nat)
  refine ⟨?_, fun hj => get_since_ofHistory_of_ge m hist hj, ?_⟩
  · intro hlt
    simp only [get_since_index, if_pos hlt, hw]
  · have := get_since_ofHistory_of_ge m hist
      (j := (ofHistory m hist : DataBuffer Nat).current_write_index)
      (by rw [hb, current_write_index, hw]; omega)
    rw [this, current_write_index, hw, List.drop_length]

open DataBuffer in
/-- Witness for C1: capacity 3, history `[1,2,3,4,5]` (so `base_index = 2`,
`write_index = 5`): a lagging index 1 reports loss with the full contents;
index 3 returns exactly the records appended after it; the current write
index returns nothing. -/
theorem c1_get_since_index_exact_witness :
    ((ofHistory 3 [1, 2, 3, 4, 5] : DataBuffer Nat).get_since_index 1).1 =
      ([3, 4, 5], 5, true) ∧
    ((ofHistory 3 [1, 2, 3, 4, 5] : DataBuffer Nat).get_since_index 3).1 =
      ([4, 5], 5, false) ∧
    ((ofHistory 3 [1, 2, 3, 4, 5] : DataBuffer Nat).get_since_index 5).1 =
      ([], 5, false) :=
  ⟨((c1_get_since_index_exact 3 [1, 2, 3, 4, 5] 1).1 (by decide)).trans (by decide),
   ((c1_get_since_index_exact 3 [1, 2, 3, 4, 5] 3).2.1 (by decide)).trans (by decide),
   ((c1_get_since_index_exact 3 [1, 2, 3, 4, 5] 5).2.1 (by decide)).trans (by decide)⟩

open DataBuffer in
/-- C7 counterexample: `get_recent 0` on a buffer holding one record
returns the whole contents, not `min 0 occupancy = 0` records — Python's
`list(buf)[-0:]` is the entire list.  The claim fails at `n = 0`. -/
theorem c7_counterexample_get_recent_zero :
    (((mkBuffer 3 : DataBuffer Nat).append 5).get_recent 0).1 = [5] ∧
    ¬ ((((mkBuffer 3 : DataBuffer Nat).append 5).get_recent 0).1.length =
        min 0 ((mkBuffer 3 : DataBuffer Nat).append 5).buffer.length) := by
  decide

open DataBuffer in
/-- C7 amended: for every `n ≥ 1`, `get_recent n` returns the most recent
`min n occupancy` records, oldest-first (a suffix of the buffer), and
leaves the state unchanged; and after appending `capacity + k` records,
`get_recent capacity` returns exactly the last `capacity` records in
arrival order.  (For `n = 0` the code returns the entire contents, see the
counterexample.) -/
theorem c7_get_recent_amended :
    ∀ (b : DataBuffer Nat) (n m : Nat) (hist : List Nat),
      (1 ≤ n →
        (b.get_recent n).1 = b.buffer.drop (b.buffer.length - n) ∧
        (b.get_recent n).2 = b ∧
        (b.get_recent n).1.length = min n b.buffer.length ∧
        (b.get_recent n).1.IsSuffix b.buffer) ∧
      (m ≤ hist.length →
        ((ofHistory m hist : DataBuffer Nat).get_recent m).1 =
          hist.drop (hist.length - m)) := by
  intro b n m hist
  constructor
  · intro hn
    have heq : (b.get_recent n).1 = b.buffer.drop (b.buffer.length - n) := by
      simp only [get_recent, pyLastSlice]
      split_ifs with h1 h2
      · omega
      · rfl
      · have : b.buffer.length - n = 0 := by omega
        rw [this, List.drop_zero]
    refine ⟨heq, rfl, ?_, ?_⟩
    · rw [heq, List.length_drop]; omega
    · rw [heq]; exact List.drop_suffix _ _
  · intro hm
    obtain ⟨_, _, _, hbuf⟩ := ofHistory_spec m hist (α := Nat)
    have hblen : (ofHistory m hist : DataBuffer Nat).buffer.length = m := by
      rw [hbuf, List.length_drop]; omega
    simp only [get_recent, pyLastSlice, hblen, le_refl, if_pos]
    split_ifs with h0
    · subst h0
      rw [hbuf]
    · rw [Nat.sub_self, List.drop_zero, hbuf]

open DataBuffer in
/-- Witness for C7 (amended) at concrete inputs. -/
theorem c7_get_recent_amended_witness :
    ((ofHistory 3 [1, 2, 3, 4, 5] : DataBuffer Nat).get_recent 2).1 = [4, 5] ∧
    ((ofHistory 2 [1, 2, 3] : DataBuffer Nat).get_recent 2).1 = [2, 3] :=
  ⟨((c7_get_recent_amended (ofHistory 3 [1, 2, 3, 4, 5]) 2 0 []).1
      (by decide)).1.trans (by decide),
   ((c7_get_recent_amended (mkBuffer 0) 1 2 [1, 2, 3]).2 (by decide)).trans
      (by decide)⟩

open DataBuffer in
/-- C10: a stale index strictly above the current write index (for
example one issued before `clear` reset the indices) is silently accepted:
`get_since_index` returns an empty list, the current write index and
`dataLost = false` — never a reported loss or an error. -/
theorem c10_stale_index_silent :
    ∀ (b : DataBuffer Nat) (lastIndex : Nat),
      DataBuffer.Inv b → b.write_index < lastIndex →
      (b.get_since_index lastIndex).1 = ([], b.write_index, false) := by
  intro b lastIndex hInv hgt
  obtain ⟨h1, h2⟩ := hInv
  have hnl : ¬ lastIndex < b.base_index := by omega
  have hge : b.buffer.length ≤ lastIndex - b.base_index := by omega
  simp only [get_since_index, if_neg hnl, if_pos hge]

open DataBuffer in
/-- Witness for C10: index 3 was valid before `clear`; afterwards the
write index is 0 and the stale index is accepted silently. -/
theorem c10_stale_index_silent_witness :
    DataBuffer.Inv ((ofHistory 2 [1, 2, 3] : DataBuffer Nat).clear) ∧
    (((ofHistory 2 [1, 2, 3] : DataBuffer Nat).clear).get_since_index 3).1 =
      ([], 0, false) :=
  ⟨by decide,
   (c10_stale_index_silent ((ofHistory 2 [1, 2, 3] : DataBuffer Nat).clear) 3
      (by decide) (by decide)).trans (by decide)⟩

/-! ## ConnectionSupervisor (oscilloscope/app.py, `collect_data_with_retry`)

The claim is about the scenario in which every connection attempt fails,
so each iteration of the `while not stop and retry_count < max_retries`
loop runs its body, raises, increments `retry_count`, sleeps the backoff
delay if `retry_count < max_retries` and otherwise reports giving up; the
loop condition then terminates the loop after the fifth failure.  The
observable behaviour is the sequence of attempts, sleeps and the terminal
report; the loop is translated structurally on its variant
`max_retries - retry_count`. -/

/-- Observable supervisor events: the start of attempt `n` (1-based), a
backoff sleep of `d` seconds, and the terminal "max retries exceeded,
giving up" report. -/
inductive SupEvent where
  | attempt (n : Nat)
  | sleep (d : ℚ)
  | giveUp
deriving DecidableEq, Repr

/-- `retry_delay = 3.0` (initial backoff delay, seconds). -/
def retry_delay : ℚ := 3

/-- `backoff_multiplier = 1.5`. -/
def backoff_multiplier : ℚ := 3 / 2

/-- The event trace of the retry loop when every attempt fails.
`remaining` is the loop variant `max_retries - retry_count` and `made` the
number of attempts already made (`retry_count`).  After a failure the new
`retry_count` is `made + 1`, so the backoff slept between attempts is
`retry_delay * backoff_multiplier ^ ((made + 1) - 1)`. -/
def supervisorLoop : Nat → Nat → List SupEvent
  | 0, _ => []
  | remaining + 1, made =>
    SupEvent.attempt (made + 1) ::
      (if remaining = 0 then [SupEvent.giveUp]
       else SupEvent.sleep (retry_delay * backoff_multiplier ^ made) ::
         supervisorLoop remaining (made + 1))

/-- `collect_data_with_retry` with `max_retries = 5`, starting from
`retry_count = 0`, under always-failing attempts. -/
def collect_data_with_retry : List SupEvent :=
  supervisorLoop 5 0

/-- `True` exactly on `attempt` events. -/
def isAttemptEvent : SupEvent → Bool
  | SupEvent.attempt _ => true
  | _ => false

/-- C8: when every connection attempt fails, the supervisor makes exactly
5 attempts; the backoff delay `3.0 * 1.5^(k-1)` seconds is slept only
between attempt `k` and attempt `k+1` (none after the fifth); the terminal
give-up report follows the fifth attempt and nothing follows it — in
particular no 6th attempt occurs. -/
theorem c8_supervisor_five_attempts :
    collect_data_with_retry =
      [SupEvent.attempt 1, SupEvent.sleep 3,
       SupEvent.attempt 2, SupEvent.sleep (9 / 2),
       SupEvent.attempt 3, SupEvent.sleep (27 / 4),
       SupEvent.attempt 4, SupEvent.sleep (81 / 8),
       SupEvent.attempt 5, SupEvent.giveUp] ∧
    (collect_data_with_retry.filter isAttemptEvent).length = 5 ∧
    SupEvent.attempt 6 ∉ collect_data_with_retry := by
  have htrace : collect_data_with_retry =
      [SupEvent.attempt 1, SupEvent.sleep 3,
       SupEvent.attempt 2, SupEvent.sleep (9 / 2),
       SupEvent.attempt 3, SupEvent.sleep (27 / 4),
       SupEvent.attempt 4, SupEvent.sleep (81 / 8),
       SupEvent.attempt 5, SupEvent.giveUp] := by
    simp only [collect_data_with_retry, supervisorLoop, retry_delay,
      backoff_multiplier]
    norm_num
  refine ⟨htrace, ?_, ?_⟩
  · rw [htrace]
    simp [List.filter, isAttemptEvent]
  · rw [htrace]
    simp

/-! ## DeviceResolver (ble_receiver.py, `_match_device` / `find_device`)

A scan result is modelled by the pieces `_match_device` inspects:
`dev.name` (`None` when the device does not advertise a name) and
`adv.service_uuids` (`None` is defaulted to `[]` by `or []`).  `find_device`
iterates `devices_adv.values()` in scan-result (insertion) order and
returns the first match, `None` otherwise.  Python strings are `List Char`
and `str.lower()` is `Char.toLower` (the UUIDs compared are ASCII). -/

structure ScanEntry where
  name : Option (List Char)
  service_uuids : Option (List (List Char))
deriving DecidableEq, Repr

/-- Python `s.lower()` on the ASCII strings compared here. -/
def lowerStr (s : List Char) : List Char :=
  s.map Char.toLower

/-- `_match_device(dev, adv, device_name, service_uuid)`: exact name match
first; otherwise case-insensitive membership of `service_uuid` in the
advertised service UUIDs. -/
def _match_device (dev : ScanEntry) (device_name service_uuid : List Char) : Bool :=
  if dev.name = some device_name then true
  else
    (dev.service_uuids.getD []).any fun u => lowerStr u = lowerStr service_uuid

/-- `find_device(...)`: first entry of the scan result matching
`_match_device`, `None` (NotFound) otherwise. -/
def find_device (devices : List ScanEntry)
    (device_name service_uuid : List Char) : Option ScanEntry :=
  devices.find? fun d => _match_device d device_name service_uuid

/-- `find?` returns the first satisfying element: everything before it
fails the predicate. -/
theorem find?_some_first {α : Type} (p : α → Bool) :
    ∀ (l : List α) (a : α), l.find? p = some a →
      p a = true ∧ ∃ l₁ l₂, l = l₁ ++ a :: l₂ ∧ ∀ x ∈ l₁, p x = false := by
  intro l
  induction l with
  | nil => intro a h; simp [List.find?] at h
  | cons b t ih =>
    intro a h
    by_cases hb : p b
    · rw [List.find?_cons_of_pos t hb] at h
      obtain rfl : b = a := by injection h
      exact ⟨hb, [], t, rfl, by simp⟩
    · rw [List.find?_cons_of_neg t hb] at h
      obtain ⟨hpa, l₁, l₂, rfl, hfail⟩ := ih a h
      refine ⟨hpa, b :: l₁, l₂, rfl, ?_⟩
      intro x hx
      rcases List.mem_cons.mp hx with rfl | hx'
      · exact Bool.eq_false_iff.mpr hb
      · exact hfail x hx'

/-- C9: `find_device` returns NotFound (`none`) exactly when no scan
entry matches; a returned device is the first matching candidate in
scan-result order; an exact advertised-name match alone suffices
(evaluated before, and independently of, the service UUIDs); and a
case-insensitively equal advertised service UUID alone suffices. -/
theorem c9_find_device_policy :
    ∀ (devices : List ScanEntry) (device_name service_uuid : List Char),
      (find_device devices device_name service_uuid = none ↔
        ∀ d ∈ devices, _match_device d device_name service_uuid = false) ∧
      (∀ d, find_device devices device_name service_uuid = some d →
        _match_device d device_name service_uuid = true ∧
        ∃ pre post, devices = pre ++ d :: post ∧
          ∀ e ∈ pre, _match_device e device_name service_uuid = false) ∧
      (∀ d : ScanEntry, d.name = some device_name →
        _match_device d device_name service_uuid = true) ∧
      (∀ (d : ScanEntry) (u : List Char), u ∈ d.service_uuids.getD [] →
        lowerStr u = lowerStr service_uuid →
        _match_device d device_name service_uuid = true) := by
  intro devices device_name service_uuid
  refine ⟨?_, ?_, ?_, ?_⟩
  · rw [find_device, List.find?_eq_none]
    constructor
    · intro h d hd; exact Bool.eq_false_iff.mpr (h d hd)
    · intro h d hd; exact Bool.eq_false_iff.mp (h d hd)
  · intro d h
    exact find?_some_first _ devices d h
  · intro d hname
    simp [_match_device, hname]
  · intro d u hu hlow
    rw [_match_device]
    split_ifs with hname
    · rfl
    · exact List.any_eq_true.mpr ⟨u, hu, by simp [hlow]⟩

/-- Witness for C9: a first entry with no name but a service UUID
matching case-insensitively is selected ahead of a later entry with an
exact name match. -/
theorem c9_find_device_policy_witness :
    find_device
        [⟨none, some [['6', 'E']]⟩, ⟨some ['X'], none⟩] ['X'] ['6', 'e'] =
      some ⟨none, some [['6', 'E']]⟩ ∧
    _match_device (⟨none, some [['6', 'E']]⟩ : ScanEntry) ['X'] ['6', 'e'] = true ∧
    _match_device (⟨some ['X'], none⟩ : ScanEntry) ['X'] ['6', 'e'] = true :=
  ⟨by decide,
   ((c9_find_device_policy [⟨none, some [['6', 'E']]⟩, ⟨some ['X'], none⟩]
      ['X'] ['6', 'e']).2.1 ⟨none, some [['6', 'E']]⟩ (by decide)).1,
   (c9_find_device_policy [] ['X'] ['6', 'e']).2.2.1 ⟨some ['X'], none⟩ rfl⟩

/-! ## RecordParser (ble_receiver.py, `ImuRow.parse_csv`)

`parse_csv` splits the line on `","`, strips whitespace around every
part, requires exactly 9 fields, converts the first with `int(...)` and
the remaining eight with `float(...)`, raising `ValueError` otherwise
(modelled as `none`).  Python `str` is `List Char`; `int()`/`float()` on
the already-stripped parts are modelled by `pyInt`/`pyFloat` below. -/

/-- Value of a decimal digit character. -/
def digitVal (c : Char) : Nat :=
  c.toNat - 48

/-- Value of a big-endian string of decimal digits. -/
def digitsToNat (l : List Char) : Nat :=
  l.foldl (fun a c => 10 * a + digitVal c) 0

/-- A nonempty all-digit string, as a number. -/
def parseNatDigits (l : List Char) : Option Nat :=
  if l ≠ [] ∧ l.all Char.isDigit then some (digitsToNat l) else none

/-- Strip one optional leading sign, returning the sign as `±1`. -/
def stripSign (l : List Char) : Int × List Char :=
  match l with
  | [] => (1, [])
  | c :: rest =>
    if c = '-' then (-1, rest)
    else if c = '+' then (1, rest)
    else (1, c :: rest)

/-- Python `int(s)` on an already-stripped string: optional sign followed
by a nonempty run of decimal digits.  (Underscore digit separators and
non-ASCII digits, which CPython also accepts, are elided.) -/
def pyInt (l : List Char) : Option Int :=
  (parseNatDigits (stripSign l).2).map fun n => (stripSign l).1 * n

/-- The exponent marker of a Python float literal. -/
def isExpChar (c : Char) : Bool :=
  c = 'e' ∨ c = 'E'

/-- The decimal point of a Python float literal. -/
def isDotChar (c : Char) : Bool :=
  c = '.'

/-- Split at the first character satisfying `p`; `none` when absent. -/
def splitOnFirst (p : Char → Bool) : List Char → List Char × Option (List Char)
  | [] => ([], none)
  | c :: cs =>
    if p c then ([], some cs)
    else
      let r := splitOnFirst p cs
      (c :: r.1, r.2)

/-- Python `float(s)` on an already-stripped string, as an exact
rational: optional sign, then a mantissa `digits[.digits]` containing at
least one digit, then an optional `e`/`E` integer exponent.  (`inf`/`nan`
and underscore separators are elided, as is the final IEEE rounding step:
the doubles this program handles carry far fewer significant digits than
a double holds.) -/
def pyFloat (l : List Char) : Option ℚ := do
  let s := (stripSign l).1
  let rest := (stripSign l).2
  let mant := (splitOnFirst isExpChar rest).1
  let expPart := (splitOnFirst isExpChar rest).2
  let expVal : Int ←
    match expPart with
    | none => some 0
    | some e => pyInt e
  let ip := (splitOnFirst isDotChar mant).1
  let fp := (splitOnFirst isDotChar mant).2
  let mantVal : ℚ ←
    match fp with
    | none => (parseNatDigits ip).map fun n => (n : ℚ)
    | some f =>
      if ip.isEmpty ∧ f.isEmpty then none
      else if ip.all Char.isDigit ∧ f.all Char.isDigit then
        some ((digitsToNat ip : ℚ) + (digitsToNat f : ℚ) / (10 : ℚ) ^ f.length)
      else none
  pure ((s : ℚ) * mantVal * (10 : ℚ) ^ expVal)

/-- Python `line.split(",")`: list of parts between commas (never empty;
`""` splits to `[""]`). -/
def splitComma : List Char → List (List Char)
  | [] => [[]]
  | c :: cs =>
    if c = ',' then [] :: splitComma cs
    else
      match splitComma cs with
      | [] => [[c]]
      | a :: rest => (c :: a) :: rest

/-- Python `str.strip()`: drop whitespace from both ends (the whitespace
arising here is ASCII). -/
def trimChars (l : List Char) : List Char :=
  ((l.dropWhile Char.isWhitespace).reverse.dropWhile Char.isWhitespace).reverse

/-- The 9-field body of `parse_csv` after splitting and stripping:
`int(parts[0])`, `float(parts[1..8])`, else `ValueError`. -/
def parse_fields : List (List Char) → Option ImuRow
  | [p0, p1, p2, p3, p4, p5, p6, p7, p8] => do
    let millis ← pyInt p0
    let ax ← pyFloat p1
    let ay ← pyFloat p2
    let az ← pyFloat p3
    let gx ← pyFloat p4
    let gy ← pyFloat p5
    let gz ← pyFloat p6
    let tempC ← pyFloat p7
    let audioRMS ← pyFloat p8
    pure ⟨millis, ax, ay, az, gx, gy, gz, tempC, audioRMS⟩
  | _ => none

/-- `ImuRow.parse_csv(line)`; `none` models the raised `ValueError`. -/
def parse_csv (line : List Char) : Option ImuRow :=
  parse_fields ((splitComma line).map trimChars)

theorem list_eq_nine_of_length {α : Type} {l : List α} (h : l.length = 9) :
    ∃ y0 y1 y2 y3 y4 y5 y6 y7 y8 : α,
      l = [y0, y1, y2, y3, y4, y5, y6, y7, y8] := by
  rcases l with _ | ⟨y0, _ | ⟨y1, _ | ⟨y2, _ | ⟨y3, _ | ⟨y4, _ | ⟨y5, _ |
    ⟨y6, _ | ⟨y7, _ | ⟨y8, _ | ⟨y9, r⟩⟩⟩⟩⟩⟩⟩⟩⟩⟩ <;>
    first
      | exact ⟨y0, y1, y2, y3, y4, y5, y6, y7, y8, rfl⟩
      | (simp only [List.length_cons, List.length_nil] at h; omega)

theorem parse_fields_of_length_ne {ps : List (List Char)}
    (h : ps.length ≠ 9) : parse_fields ps = none := by
  rcases ps with _ | ⟨q0, _ | ⟨q1, _ | ⟨q2, _ | ⟨q3, _ | ⟨q4, _ | ⟨q5, _ |
    ⟨q6, _ | ⟨q7, _ | ⟨q8, _ | ⟨q9, r⟩⟩⟩⟩⟩⟩⟩⟩⟩⟩ <;>
    first
      | rfl
      | (simp only [List.length_cons, List.length_nil] at h; omega)

theorem parse_fields_nine_none_iff (p0 p1 p2 p3 p4 p5 p6 p7 p8 : List Char) :
    parse_fields [p0, p1, p2, p3, p4, p5, p6, p7, p8] = none ↔
      pyInt p0 = none ∨ pyFloat p1 = none ∨ pyFloat p2 = none ∨
      pyFloat p3 = none ∨ pyFloat p4 = none ∨ pyFloat p5 = none ∨
      pyFloat p6 = none ∨ pyFloat p7 = none ∨ pyFloat p8 = none := by
  rcases h0 : pyInt p0 with _ | m
  · simp [parse_fields, h0]
  rcases h1 : pyFloat p1 with _ | a1
  · simp [parse_fields, h0, h1]
  rcases h2 : pyFloat p2 with _ | a2
  · simp [parse_fields, h0, h1, h2]
  rcases h3 : pyFloat p3 with _ | a3
  · simp [parse_fields, h0, h1, h2, h3]
  rcases h4 : pyFloat p4 with _ | a4
  · simp [parse_fields, h0, h1, h2, h3, h4]
  rcases h5 : pyFloat p5 with _ | a5
  · simp [parse_fields, h0, h1, h2, h3, h4, h5]
  rcases h6 : pyFloat p6 with _ | a6
  · simp [parse_fields, h0, h1, h2, h3, h4, h5, h6]
  rcases h7 : pyFloat p7 with _ | a7
  · simp [parse_fields, h0, h1, h2, h3, h4, h5, h6, h7]
  rcases h8 : pyFloat p8 with _ | a8
  · simp [parse_fields, h0, h1, h2, h3, h4, h5, h6, h7, h8]
  simp [parse_fields, h0, h1, h2, h3, h4, h5, h6, h7, h8]

theorem parse_fields_nine_some (p0 p1 p2 p3 p4 p5 p6 p7 p8 : List Char)
    (m : ℤ) (a1 a2 a3 a4 a5 a6 a7 a8 : ℚ)
    (h0 : pyInt p0 = some m) (h1 : pyFloat p1 = some a1)
    (h2 : pyFloat p2 = some a2) (h3 : pyFloat p3 = some a3)
    (h4 : pyFloat p4 = some a4) (h5 : pyFloat p5 = some a5)
    (h6 : pyFloat p6 = some a6) (h7 : pyFloat p7 = some a7)
    (h8 : pyFloat p8 = some a8) :
    parse_fields [p0, p1, p2, p3, p4, p5, p6, p7, p8] =
      some ⟨m, a1, a2, a3, a4, a5, a6, a7, a8⟩ := by
  simp [parse_fields, h0, h1, h2, h3, h4, h5, h6, h7, h8]

/-- C4: `parse_csv` fails exactly when, after splitting on commas and
stripping whitespace from each part, the field count is not 9, or the
first field is not an integer, or one of the remaining eight fields is
not a float; in every other case it returns the record of the nine
converted values in field order. -/
theorem c4_parse_csv_characterisation :
    ∀ line : List Char,
      (parse_csv line = none ↔
        ((splitComma line).map trimChars).length ≠ 9 ∨
        ∃ p0 p1 p2 p3 p4 p5 p6 p7 p8,
          (splitComma line).map trimChars = [p0, p1, p2, p3, p4, p5, p6, p7, p8] ∧
          (pyInt p0 = none ∨ pyFloat p1 = none ∨ pyFloat p2 = none ∨
           pyFloat p3 = none ∨ pyFloat p4 = none ∨ pyFloat p5 = none ∨
           pyFloat p6 = none ∨ pyFloat p7 = none ∨ pyFloat p8 = none)) ∧
      (∀ p0 p1 p2 p3 p4 p5 p6 p7 p8 m a1 a2 a3 a4 a5 a6 a7 a8,
        (splitComma line).map trimChars = [p0, p1, p2, p3, p4, p5, p6, p7, p8] →
        pyInt p0 = some m → pyFloat p1 = some a1 → pyFloat p2 = some a2 →
        pyFloat p3 = some a3 → pyFloat p4 = some a4 → pyFloat p5 = some a5 →
        pyFloat p6 = some a6 → pyFloat p7 = some a7 → pyFloat p8 = some a8 →
        parse_csv line = some ⟨m, a1, a2, a3, a4, a5, a6, a7, a8⟩) := by
  intro line
  constructor
  · constructor
    · intro hnone
      by_cases hlen : ((splitComma line).map trimChars).length = 9
      · obtain ⟨p0, p1, p2, p3, p4, p5, p6, p7, p8, hps⟩ :=
          list_eq_nine_of_length hlen
        rw [parse_csv, hps] at hnone
        exact Or.inr ⟨p0, p1, p2, p3, p4, p5, p6, p7, p8, hps,
          (parse_fields_nine_none_iff p0 p1 p2 p3 p4 p5 p6 p7 p8).mp hnone⟩
      · exact Or.inl hlen
    · rintro (hlen | ⟨p0, p1, p2, p3, p4, p5, p6, p7, p8, hps, hdisj⟩)
      · exact parse_fields_of_length_ne hlen
      · rw [parse_csv, hps]
        exact (parse_fields_nine_none_iff p0 p1 p2 p3 p4 p5 p6 p7 p8).mpr hdisj
  · intro p0 p1 p2 p3 p4 p5 p6 p7 p8 m a1 a2 a3 a4 a5 a6 a7 a8 hps
    intro h0 h1 h2 h3 h4 h5 h6 h7 h8
    rw [parse_csv, hps]
    exact parse_fields_nine_some p0 p1 p2 p3 p4 p5 p6 p7 p8 m
      a1 a2 a3 a4 a5 a6 a7 a8 h0 h1 h2 h3 h4 h5 h6 h7 h8

/-- Witness for C4: an 8-field line fails, a 9-field line with a
non-numeric field fails, and a 9-field numeric line (with whitespace
around a comma) parses to the record of converted values. -/
theorem c4_parse_csv_characterisation_witness :
    parse_csv (("1,2,3,4,5,6,7,8").toList) = none ∧
    parse_csv (("1,2,3,4,5,6,7,8,x").toList) = none ∧
    parse_csv (("7, 0.5,0,0,0,0,0,0,0").toList) =
      some ⟨7, 1 / 2, 0, 0, 0, 0, 0, 0, 0⟩ := by
  refine ⟨?_, ?_, ?_⟩
  · exact (c4_parse_csv_characterisation (("1,2,3,4,5,6,7,8").toList)).1.mpr
      (Or.inl (by decide))
  · exact (c4_parse_csv_characterisation (("1,2,3,4,5,6,7,8,x").toList)).1.mpr
      (Or.inr ⟨['1'], ['2'], ['3'], ['4'], ['5'], ['6'], ['7'], ['8'], ['x'],
        by decide,
        Or.inr (Or.inr (Or.inr (Or.inr (Or.inr (Or.inr (Or.inr (Or.inr
          (by decide))))))))⟩)
  · exact (c4_parse_csv_characterisation (("7, 0.5,0,0,0,0,0,0,0").toList)).2
      ['7'] ['0', '.', '5'] ['0'] ['0'] ['0'] ['0'] ['0'] ['0'] ['0']
      7 (1 / 2) 0 0 0 0 0 0 0
      (by decide) (by decide)
      (by simp [pyFloat, splitOnFirst, parseNatDigits, digitsToNat, digitVal,
        stripSign, isExpChar, isDotChar]; norm_num)
      (by simp [pyFloat, splitOnFirst, parseNatDigits, digitsToNat, digitVal,
        stripSign, isExpChar, isDotChar])
      (by simp [pyFloat, splitOnFirst, parseNatDigits, digitsToNat, digitVal,
        stripSign, isExpChar, isDotChar])
      (by simp [pyFloat, splitOnFirst, parseNatDigits, digitsToNat, digitVal,
        stripSign, isExpChar, isDotChar])
      (by simp [pyFloat, splitOnFirst, parseNatDigits, digitsToNat, digitVal,
        stripSign, isExpChar, isDotChar])
      (by simp [pyFloat, splitOnFirst, parseNatDigits, digitsToNat, digitVal,
        stripSign, isExpChar, isDotChar])
      (by simp [pyFloat, splitOnFirst, parseNatDigits, digitsToNat, digitVal,
        stripSign, isExpChar, isDotChar])
      (by simp [pyFloat, splitOnFirst, parseNatDigits, digitsToNat, digitVal,
        stripSign, isExpChar, isDotChar])

/-! ## Output row formatting (data_recorder.py, `RecordFileWriter._format_csv_row`)

`_format_csv_row` renders
`f"{millis},{ax:.6f},…,{gz:.6f},{tempC:.2f},{audioRMS:.3f}\n"`.
Python's fixed-point float formatting prints the value rounded to `p`
fractional digits; it is modelled by scaling to `round (x * 10^p)` and
printing that integer with `p` forced fractional digits.  (CPython
resolves exact ties by round-half-even on the decimal expansion of the
double; none of the values exercised here sits on a tie, and the
exactly-representable values the round-trip theorem quantifies over are
not rounded at all.) -/

/-- The character of a decimal digit. -/
def natDigitChar (d : Nat) : Char :=
  Char.ofNat (48 + d)

/-- Decimal digits of `n`, big-endian; `[]` for `0`. -/
def natToChars (n : Nat) : List Char :=
  (Nat.digits 10 n).reverse.map natDigitChar

/-- Decimal rendering of a natural number (`"0"` for `0`). -/
def natRepr (n : Nat) : List Char :=
  if n = 0 then ['0'] else natToChars n

/-- Python `f"{m}"` for an `int`. -/
def intRepr (m : Int) : List Char :=
  if m < 0 then '-' :: natRepr m.natAbs else natRepr m.natAbs

/-- The fractional digits of `m` (with `m < 10^p`), zero-padded on the
left to exactly `p` digits. -/
def fracPad (p m : Nat) : List Char :=
  List.replicate (p - (natToChars m).length) '0' ++ natToChars m

/-- Fixed-point rendering of the scaled integer `k` (the value times
`10^p`) with `p` forced fractional digits. -/
def formatScaled (p : Nat) (k : Int) : List Char :=
  (if k < 0 then ['-'] else []) ++ natRepr (k.natAbs / 10 ^ p) ++
    (if p = 0 then [] else '.' :: fracPad p (k.natAbs % 10 ^ p))

/-- Python `f"{x:.pf}"`. -/
def formatFixed (p : Nat) (x : ℚ) : List Char :=
  formatScaled p (round (x * (10 : ℚ) ^ p))

/-- `RecordFileWriter._format_csv_row(sample)` (including the trailing
newline the f-string appends). -/
def _format_csv_row (s : ImuRow) : List Char :=
  intRepr s.millis ++ [','] ++ formatFixed 6 s.ax ++ [','] ++
    formatFixed 6 s.ay ++ [','] ++ formatFixed 6 s.az ++ [','] ++
    formatFixed 6 s.gx ++ [','] ++ formatFixed 6 s.gy ++ [','] ++
    formatFixed 6 s.gz ++ [','] ++ formatFixed 2 s.tempC ++ [','] ++
    formatFixed 3 s.audioRMS ++ ['\n']

theorem natDigitChar_isDigit {d : Nat} (h : d < 10) :
    (natDigitChar d).isDigit = true := by
  interval_cases d <;> decide

theorem digitVal_natDigitChar {d : Nat} (h : d < 10) :
    digitVal (natDigitChar d) = d := by
  interval_cases d <;> decide

theorem natToChars_all_digit (n : Nat) :
    ∀ c ∈ natToChars n, c.isDigit = true := by
  intro c hc
  simp only [natToChars, List.mem_map, List.mem_reverse] at hc
  obtain ⟨d, hd, rfl⟩ := hc
  exact natDigitChar_isDigit (Nat.digits_lt_base (by norm_num) hd)

theorem natRepr_all_digit (n : Nat) :
    ∀ c ∈ natRepr n, c.isDigit = true := by
  intro c hc
  rw [natRepr] at hc
  split_ifs at hc
  · simp only [List.mem_singleton] at hc; subst hc; decide
  · exact natToChars_all_digit n c hc

theorem natRepr_ne_nil (n : Nat) : natRepr n ≠ [] := by
  rw [natRepr]
  split_ifs with h
  · simp
  · simp only [natToChars, ne_eq, List.map_eq_nil_iff, List.reverse_eq_nil_iff]
    exact Nat.digits_ne_nil_iff_ne_zero.mpr h

theorem digitsToNat_append (l : List Char) (c : Char) :
    digitsToNat (l ++ [c]) = 10 * digitsToNat l + digitVal c := by
  simp [digitsToNat, List.foldl_append]

theorem digitsToNat_ofDigits (ds : List Nat) (h : ∀ d ∈ ds, d < 10) :
    digitsToNat (ds.reverse.map natDigitChar) = Nat.ofDigits 10 ds := by
  induction ds with
  | nil => simp [digitsToNat]
  | cons d t ih =>
    have hd : d < 10 := h d (by simp)
    have ht : ∀ x ∈ t, x < 10 := fun x hx => h x (by simp [hx])
    simp only [List.reverse_cons, List.map_append, List.map_cons,
      List.map_nil]
    rw [digitsToNat_append, ih ht, digitVal_natDigitChar hd,
      Nat.ofDigits_cons]
    ring

theorem digitsToNat_natToChars (n : Nat) : digitsToNat (natToChars n) = n := by
  rw [natToChars,
    digitsToNat_ofDigits _ (fun d hd => Nat.digits_lt_base (by norm_num) hd),
    Nat.ofDigits_digits]

theorem digitsToNat_natRepr (n : Nat) : digitsToNat (natRepr n) = n := by
  rw [natRepr]
  split_ifs with h
  · subst h; decide
  · exact digitsToNat_natToChars n

theorem digitsToNat_replicate_zero (z : Nat) (l : List Char) :
    digitsToNat (List.replicate z '0' ++ l) = digitsToNat l := by
  induction z with
  | zero => simp
  | succ z ih =>
    rw [List.replicate_succ, List.cons_append]
    show List.foldl _ (10 * 0 + digitVal '0') _ = _
    have : 10 * 0 + digitVal '0' = 0 := rfl
    rw [this]
    exact ih

theorem natToChars_length_le {m p : Nat} (h : m < 10 ^ p) :
    (natToChars m).length ≤ p := by
  rcases Nat.eq_zero_or_pos m with rfl | hm
  · simp [natToChars]
  · have : (Nat.digits 10 m).length = Nat.log 10 m + 1 :=
      Nat.digits_len 10 m (by norm_num) (Nat.pos_iff_ne_zero.mp hm)
    have hlog : Nat.log 10 m < p :=
      (Nat.lt_pow_iff_log_lt (by norm_num) (Nat.pos_iff_ne_zero.mp hm)).mp h
    simp only [natToChars, List.length_map, List.length_reverse, this]
    omega

theorem splitOnFirst_of_none {p : Char → Bool} :
    ∀ {l : List Char}, (∀ c ∈ l, p c = false) → splitOnFirst p l = (l, none) := by
  intro l
  induction l with
  | nil => intro _; rfl
  | cons c t ih =>
    intro h
    have hc : p c = false := h c (by simp)
    have ht := ih fun x hx => h x (by simp [hx])
    simp [splitOnFirst, hc, ht]

theorem splitOnFirst_of_first {p : Char → Bool} (l₁ : List Char) (c : Char)
    (l₂ : List Char) (h₁ : ∀ x ∈ l₁, p x = false) (hc : p c = true) :
    splitOnFirst p (l₁ ++ c :: l₂) = (l₁, some l₂) := by
  induction l₁ with
  | nil => simp [splitOnFirst, hc]
  | cons d t ih =>
    have hd : p d = false := h₁ d (by simp)
    have ht := ih fun x hx => h₁ x (by simp [hx])
    simp [splitOnFirst, hd, ht]

theorem digit_char_facts {c : Char} (h : c.isDigit = true) :
    c ≠ ',' ∧ c ≠ '.' ∧ c ≠ '-' ∧ c ≠ '+' ∧ isExpChar c = false ∧
      isDotChar c = false ∧ c.isWhitespace = false := by
  refine ⟨?_, ?_, ?_, ?_, ?_, ?_, ?_⟩
  · rintro rfl; exact absurd h (by decide)
  · rintro rfl; exact absurd h (by decide)
  · rintro rfl; exact absurd h (by decide)
  · rintro rfl; exact absurd h (by decide)
  · by_contra hx
    rw [Bool.not_eq_false] at hx
    rcases (by simpa [isExpChar] using hx : c = 'e' ∨ c = 'E') with rfl | rfl <;>
      exact absurd h (by decide)
  · by_contra hx
    rw [Bool.not_eq_false] at hx
    have : c = '.' := by simpa [isDotChar] using hx
    subst this
    exact absurd h (by decide)
  · by_contra hx
    rw [Bool.not_eq_false] at hx
    rcases (by simpa [Char.isWhitespace] using hx :
        ((c = ' ' ∨ c = '\t') ∨ c = '\x0d') ∨ c = '\n') with
      ((rfl | rfl) | rfl) | rfl <;>
      exact absurd h (by decide)

theorem parseNatDigits_of_digits {l : List Char} (hne : l ≠ [])
    (hdig : ∀ c ∈ l, c.isDigit = true) :
    parseNatDigits l = some (digitsToNat l) := by
  rw [parseNatDigits, if_pos ⟨hne, List.all_eq_true.mpr hdig⟩]

theorem parseNatDigits_natRepr (n : Nat) :
    parseNatDigits (natRepr n) = some n := by
  rw [parseNatDigits_of_digits (natRepr_ne_nil n) (natRepr_all_digit n),
    digitsToNat_natRepr]

theorem stripSign_cons_of_digit {c : Char} (t : List Char)
    (h : c.isDigit = true) : stripSign (c :: t) = (1, c :: t) := by
  obtain ⟨_, _, hm, hp, _, _, _⟩ := digit_char_facts h
  simp [stripSign, hm, hp]

theorem stripSign_of_digit_head {l : List Char} (hne : l ≠ [])
    (hdig : ∀ c ∈ l, c.isDigit = true) : stripSign l = (1, l) := by
  rcases l with _ | ⟨c, t⟩
  · exact absurd rfl hne
  · exact stripSign_cons_of_digit t (hdig c (by simp))

/-- `int(str(m)) == m`: parsing back a formatted integer. -/
theorem pyInt_intRepr (m : ℤ) : pyInt (intRepr m) = some m := by
  rw [pyInt, intRepr]
  split_ifs with hneg
  · have hss : stripSign ('-' :: natRepr m.natAbs) = (-1, natRepr m.natAbs) := by
      simp [stripSign]
    rw [hss]
    have habs : ((m.natAbs : ℤ)) = -m := by omega
    simp [parseNatDigits_natRepr, habs]
  · rw [stripSign_of_digit_head (natRepr_ne_nil _) (natRepr_all_digit _)]
    have habs : ((m.natAbs : ℤ)) = m := by omega
    simp [parseNatDigits_natRepr, habs]

theorem fracPad_length {p m : Nat} (h : m < 10 ^ p) :
    (fracPad p m).length = p := by
  have := natToChars_length_le h
  simp only [fracPad, List.length_append, List.length_replicate]
  omega

theorem fracPad_all_digit (p m : Nat) :
    ∀ c ∈ fracPad p m, c.isDigit = true := by
  intro c hc
  rcases List.mem_append.mp hc with hc | hc
  · rw [List.eq_of_mem_replicate hc]; decide
  · exact natToChars_all_digit m c hc

theorem digitsToNat_fracPad (p m : Nat) : digitsToNat (fracPad p m) = m := by
  rw [fracPad, digitsToNat_replicate_zero, digitsToNat_natToChars]

theorem stripSign_append_digits {l r : List Char} (hne : l ≠ [])
    (hdig : ∀ c ∈ l, c.isDigit = true) : stripSign (l ++ r) = (1, l ++ r) := by
  rcases List.exists_cons_of_ne_nil hne with ⟨c, t, rfl⟩
  rw [List.cons_append]
  exact stripSign_cons_of_digit _ (hdig c (by simp))

/-- Parsing back a fixed-point rendering of the scaled integer `k`
recovers exactly `k / 10^p`. -/
theorem pyFloat_formatScaled {p : Nat} (hp : p ≠ 0) (k : Int) :
    pyFloat (formatScaled p k) = some ((k : ℚ) / (10 : ℚ) ^ p) := by
  have hmod : k.natAbs % 10 ^ p < 10 ^ p := Nat.mod_lt _ (by positivity)
  have hfl : (fracPad p (k.natAbs % 10 ^ p)).length = p := fracPad_length hmod
  have hstrip : stripSign (formatScaled p k) =
      ((if k < 0 then (-1 : Int) else 1),
        natRepr (k.natAbs / 10 ^ p) ++ '.' :: fracPad p (k.natAbs % 10 ^ p)) := by
    rw [formatScaled, if_neg hp]
    split_ifs with hk
    · rw [List.append_assoc, List.singleton_append]
      simp [stripSign]
    · rw [List.nil_append]
      exact stripSign_append_digits (natRepr_ne_nil _) (natRepr_all_digit _)
  have hsplitE : splitOnFirst isExpChar
      (natRepr (k.natAbs / 10 ^ p) ++ '.' :: fracPad p (k.natAbs % 10 ^ p)) =
      (natRepr (k.natAbs / 10 ^ p) ++ '.' :: fracPad p (k.natAbs % 10 ^ p),
        none) := by
    apply splitOnFirst_of_none
    intro c hc
    rcases List.mem_append.mp hc with hc | hc
    · exact (digit_char_facts (natRepr_all_digit _ c hc)).2.2.2.2.1
    · rcases List.mem_cons.mp hc with rfl | hc
      · decide
      · exact (digit_char_facts (fracPad_all_digit _ _ c hc)).2.2.2.2.1
  have hsplitD : splitOnFirst isDotChar
      (natRepr (k.natAbs / 10 ^ p) ++ '.' :: fracPad p (k.natAbs % 10 ^ p)) =
      (natRepr (k.natAbs / 10 ^ p), some (fracPad p (k.natAbs % 10 ^ p))) :=
    splitOnFirst_of_first _ _ _
      (fun x hx => (digit_char_facts (natRepr_all_digit _ x hx)).2.2.2.2.2.1)
      (by decide)
  have hie : (natRepr (k.natAbs / 10 ^ p)).isEmpty = false := by
    simp [List.isEmpty_iff, natRepr_ne_nil]
  have hia : (natRepr (k.natAbs / 10 ^ p)).all Char.isDigit = true :=
    List.all_eq_true.mpr (natRepr_all_digit _)
  have hfa : (fracPad p (k.natAbs % 10 ^ p)).all Char.isDigit = true :=
    List.all_eq_true.mpr (fracPad_all_digit _ _)
  simp only [pyFloat, hstrip, hsplitE, hsplitD, hie, hia, hfa,
    Bool.false_and, Bool.false_eq_true, if_false, Bool.and_self, if_true,
    digitsToNat_natRepr, digitsToNat_fracPad, hfl, Option.some_bind]
  simp only [false_and, if_false, true_and, and_self, if_true,
    Option.some_bind, Option.bind_some, zpow_zero, mul_one]
  simp only [Option.bind_eq_bind, Option.some_bind, Option.pure_def,
    zpow_zero, mul_one, Option.some.injEq]
  have h10 : ((10 : ℚ) ^ p) ≠ 0 := by positivity
  have hnat : 10 ^ p * (k.natAbs / 10 ^ p) + k.natAbs % 10 ^ p = k.natAbs :=
    Nat.div_add_mod k.natAbs (10 ^ p)
  have key : ((10 : ℚ)) ^ p * ((k.natAbs / 10 ^ p : ℕ) : ℚ) +
      ((k.natAbs % 10 ^ p : ℕ) : ℚ) = ((k.natAbs : ℕ) : ℚ) := by
    exact_mod_cast congrArg (fun n : ℕ => (n : ℚ)) hnat
  have hsum : ((k.natAbs / 10 ^ p : ℕ) : ℚ) +
      ((k.natAbs % 10 ^ p : ℕ) : ℚ) / (10 : ℚ) ^ p =
      ((k.natAbs : ℕ) : ℚ) / (10 : ℚ) ^ p := by
    field_simp
    linarith [key]
  rw [hsum]
  have habs : ((k.natAbs : ℕ) : ℚ) = ((|k| : ℤ) : ℚ) := Int.cast_natAbs
  split_ifs with hk
  · rw [habs, abs_of_neg hk]
    push_cast
    ring
  · rw [habs, abs_of_nonneg (not_lt.mp hk)]
    push_cast
    ring

/-- On an exactly representable value `k / 10^p`, fixed-point formatting
does not round: the scaled value is the integer `k` itself. -/
theorem formatFixed_exact (p : Nat) (k : ℤ) :
    formatFixed p ((k : ℚ) / 10 ^ p) = formatScaled p k := by
  rw [formatFixed, div_mul_cancel₀ _ (by positivity : ((10 : ℚ) ^ p) ≠ 0),
    round_intCast]

theorem formatScaled_chars (p : Nat) (k : ℤ) :
    ∀ c ∈ formatScaled p k, c.isDigit = true ∨ c = '.' ∨ c = '-' := by
  intro c hc
  by_cases hk : k < 0 <;> by_cases hp : p = 0 <;>
    simp [formatScaled, hk, hp] at hc
  · rcases hc with rfl | hc
    · exact Or.inr (Or.inr rfl)
    · exact Or.inl (natRepr_all_digit _ c hc)
  · rcases hc with rfl | hc | rfl | hc
    · exact Or.inr (Or.inr rfl)
    · exact Or.inl (natRepr_all_digit _ c hc)
    · exact Or.inr (Or.inl rfl)
    · exact Or.inl (fracPad_all_digit _ _ c hc)
  · exact Or.inl (natRepr_all_digit _ c hc)
  · rcases hc with hc | rfl | hc
    · exact Or.inl (natRepr_all_digit _ c hc)
    · exact Or.inr (Or.inl rfl)
    · exact Or.inl (fracPad_all_digit _ _ c hc)

theorem intRepr_chars (m : ℤ) :
    ∀ c ∈ intRepr m, c.isDigit = true ∨ c = '.' ∨ c = '-' := by
  intro c hc
  by_cases hm : m < 0 <;> simp [intRepr, hm] at hc
  · rcases hc with rfl | hc
    · exact Or.inr (Or.inr rfl)
    · exact Or.inl (natRepr_all_digit _ c hc)
  · exact Or.inl (natRepr_all_digit _ c hc)

theorem out_chars_no_comma {l : List Char}
    (h : ∀ c ∈ l, c.isDigit = true ∨ c = '.' ∨ c = '-') :
    ∀ c ∈ l, c ≠ ',' := by
  intro c hc
  rcases h c hc with hd | rfl | rfl
  · exact (digit_char_facts hd).1
  · decide
  · decide

theorem out_chars_no_ws {l : List Char}
    (h : ∀ c ∈ l, c.isDigit = true ∨ c = '.' ∨ c = '-') :
    ∀ c ∈ l, c.isWhitespace = false := by
  intro c hc
  rcases h c hc with hd | rfl | rfl
  · exact (digit_char_facts hd).2.2.2.2.2.2
  · decide
  · decide

theorem dropWhile_of_all_false {p : Char → Bool} :
    ∀ {l : List Char}, (∀ c ∈ l, p c = false) → l.dropWhile p = l := by
  intro l h
  cases l with
  | nil => rfl
  | cons c t => simp [List.dropWhile_cons, h c (by simp)]

theorem trimChars_of_no_ws {l : List Char}
    (h : ∀ c ∈ l, c.isWhitespace = false) : trimChars l = l := by
  rw [trimChars, dropWhile_of_all_false h,
    dropWhile_of_all_false (fun c hc => h c (List.mem_reverse.mp hc)),
    List.reverse_reverse]

theorem trimChars_append_newline {l : List Char}
    (h : ∀ c ∈ l, c.isWhitespace = false) :
    trimChars (l ++ ['\n']) = l := by
  rcases l with _ | ⟨c, t⟩
  · decide
  · have hc : c.isWhitespace = false := h c (by simp)
    have h1 : ((c :: t) ++ ['\n']).dropWhile Char.isWhitespace =
        (c :: t) ++ ['\n'] := by
      rw [List.cons_append, List.dropWhile_cons, hc]
      simp
    have h2 : ((c :: t) ++ ['\n']).reverse = '\n' :: (c :: t).reverse := by
      rw [List.reverse_append, List.reverse_singleton, List.singleton_append]
    have h3 : ('\n' :: (c :: t).reverse).dropWhile Char.isWhitespace =
        (c :: t).reverse := by
      rw [List.dropWhile_cons, show ('\n'.isWhitespace) = true from rfl]
      simp only [if_true]
      exact dropWhile_of_all_false fun x hx => h x (List.mem_reverse.mp hx)
    rw [trimChars, h1, h2, h3, List.reverse_reverse]

theorem splitComma_cons_comma (l : List Char) :
    splitComma (',' :: l) = [] :: splitComma l := by
  simp [splitComma]

theorem splitComma_append_field {f : List Char} {rest a : List Char}
    {tl : List (List Char)} (hf : ∀ c ∈ f, c ≠ ',')
    (h : splitComma rest = a :: tl) :
    splitComma (f ++ rest) = (f ++ a) :: tl := by
  induction f with
  | nil => simpa using h
  | cons c t ih =>
    have hc : c ≠ ',' := hf c (by simp)
    have ht := ih fun x hx => hf x (by simp [hx])
    rw [List.cons_append, splitComma, if_neg hc]
    simp only [ht, List.cons_append]

theorem splitComma_field_comma {f rest : List Char}
    (hf : ∀ c ∈ f, c ≠ ',') :
    splitComma (f ++ ',' :: rest) = f :: splitComma rest := by
  have h := splitComma_append_field hf (splitComma_cons_comma rest)
  simpa using h

/-- Round-trip through the output formatter: parsing a formatted row
recovers the record exactly when every field is exactly representable at
its formatted precision (6 fractional digits for the motion fields, 2 for
temperature, 3 for audio). -/
theorem parse_csv_format_row (r : ImuRow)
    (hax : ∃ k : ℤ, r.ax = (k : ℚ) / 10 ^ 6)
    (hay : ∃ k : ℤ, r.ay = (k : ℚ) / 10 ^ 6)
    (haz : ∃ k : ℤ, r.az = (k : ℚ) / 10 ^ 6)
    (hgx : ∃ k : ℤ, r.gx = (k : ℚ) / 10 ^ 6)
    (hgy : ∃ k : ℤ, r.gy = (k : ℚ) / 10 ^ 6)
    (hgz : ∃ k : ℤ, r.gz = (k : ℚ) / 10 ^ 6)
    (htc : ∃ k : ℤ, r.tempC = (k : ℚ) / 10 ^ 2)
    (har : ∃ k : ℤ, r.audioRMS = (k : ℚ) / 10 ^ 3) :
    parse_csv (_format_csv_row r) = some r := by
  obtain ⟨k1, e1⟩ := hax
  obtain ⟨k2, e2⟩ := hay
  obtain ⟨k3, e3⟩ := haz
  obtain ⟨k4, e4⟩ := hgx
  obtain ⟨k5, e5⟩ := hgy
  obtain ⟨k6, e6⟩ := hgz
  obtain ⟨k7, e7⟩ := htc
  obtain ⟨k8, e8⟩ := har
  have f1 : formatFixed 6 r.ax = formatScaled 6 k1 := by
    rw [e1, formatFixed_exact]
  have f2 : formatFixed 6 r.ay = formatScaled 6 k2 := by
    rw [e2, formatFixed_exact]
  have f3 : formatFixed 6 r.az = formatScaled 6 k3 := by
    rw [e3, formatFixed_exact]
  have f4 : formatFixed 6 r.gx = formatScaled 6 k4 := by
    rw [e4, formatFixed_exact]
  have f5 : formatFixed 6 r.gy = formatScaled 6 k5 := by
    rw [e5, formatFixed_exact]
  have f6 : formatFixed 6 r.gz = formatScaled 6 k6 := by
    rw [e6, formatFixed_exact]
  have f7 : formatFixed 2 r.tempC = formatScaled 2 k7 := by
    rw [e7, formatFixed_exact]
  have f8 : formatFixed 3 r.audioRMS = formatScaled 3 k8 := by
    rw [e8, formatFixed_exact]
  have hrow : _format_csv_row r =
      intRepr r.millis ++ ',' :: (formatScaled 6 k1 ++ ',' ::
        (formatScaled 6 k2 ++ ',' :: (formatScaled 6 k3 ++ ',' ::
        (formatScaled 6 k4 ++ ',' :: (formatScaled 6 k5 ++ ',' ::
        (formatScaled 6 k6 ++ ',' :: (formatScaled 2 k7 ++ ',' ::
        (formatScaled 3 k8 ++ ['\n'])))))))) := by
    rw [_format_csv_row, f1, f2, f3, f4, f5, f6, f7, f8]
    simp [List.append_assoc]
  have hsplit : splitComma (_format_csv_row r) =
      [intRepr r.millis, formatScaled 6 k1, formatScaled 6 k2,
       formatScaled 6 k3, formatScaled 6 k4, formatScaled 6 k5,
       formatScaled 6 k6, formatScaled 2 k7,
       formatScaled 3 k8 ++ ['\n']] := by
    rw [hrow,
      splitComma_field_comma (out_chars_no_comma (intRepr_chars r.millis)),
      splitComma_field_comma (out_chars_no_comma (formatScaled_chars 6 k1)),
      splitComma_field_comma (out_chars_no_comma (formatScaled_chars 6 k2)),
      splitComma_field_comma (out_chars_no_comma (formatScaled_chars 6 k3)),
      splitComma_field_comma (out_chars_no_comma (formatScaled_chars 6 k4)),
      splitComma_field_comma (out_chars_no_comma (formatScaled_chars 6 k5)),
      splitComma_field_comma (out_chars_no_comma (formatScaled_chars 6 k6)),
      splitComma_field_comma (out_chars_no_comma (formatScaled_chars 2 k7)),
      splitComma_append_field (out_chars_no_comma (formatScaled_chars 3 k8))
        (show splitComma ['\n'] = ['\n'] :: [] from rfl)]
  have hmap : (splitComma (_format_csv_row r)).map trimChars =
      [intRepr r.millis, formatScaled 6 k1, formatScaled 6 k2,
       formatScaled 6 k3, formatScaled 6 k4, formatScaled 6 k5,
       formatScaled 6 k6, formatScaled 2 k7, formatScaled 3 k8] := by
    rw [hsplit]
    simp only [List.map_cons, List.map_nil]
    rw [trimChars_of_no_ws (out_chars_no_ws (intRepr_chars r.millis)),
      trimChars_of_no_ws (out_chars_no_ws (formatScaled_chars 6 k1)),
      trimChars_of_no_ws (out_chars_no_ws (formatScaled_chars 6 k2)),
      trimChars_of_no_ws (out_chars_no_ws (formatScaled_chars 6 k3)),
      trimChars_of_no_ws (out_chars_no_ws (formatScaled_chars 6 k4)),
      trimChars_of_no_ws (out_chars_no_ws (formatScaled_chars 6 k5)),
      trimChars_of_no_ws (out_chars_no_ws (formatScaled_chars 6 k6)),
      trimChars_of_no_ws (out_chars_no_ws (formatScaled_chars 2 k7)),
      trimChars_append_newline (out_chars_no_ws (formatScaled_chars 3 k8))]
  rw [parse_csv, hmap]
  have p1 : pyFloat (formatScaled 6 k1) = some r.ax := by
    rw [pyFloat_formatScaled (by norm_num) k1, ← e1]
  have p2 : pyFloat (formatScaled 6 k2) = some r.ay := by
    rw [pyFloat_formatScaled (by norm_num) k2, ← e2]
  have p3 : pyFloat (formatScaled 6 k3) = some r.az := by
    rw [pyFloat_formatScaled (by norm_num) k3, ← e3]
  have p4 : pyFloat (formatScaled 6 k4) = some r.gx := by
    rw [pyFloat_formatScaled (by norm_num) k4, ← e4]
  have p5 : pyFloat (formatScaled 6 k5) = some r.gy := by
    rw [pyFloat_formatScaled (by norm_num) k5, ← e5]
  have p6 : pyFloat (formatScaled 6 k6) = some r.gz := by
    rw [pyFloat_formatScaled (by norm_num) k6, ← e6]
  have p7 : pyFloat (formatScaled 2 k7) = some r.tempC := by
    rw [pyFloat_formatScaled (by norm_num) k7, ← e7]
  have p8 : pyFloat (formatScaled 3 k8) = some r.audioRMS := by
    rw [pyFloat_formatScaled (by norm_num) k8, ← e8]
  exact parse_fields_nine_some _ _ _ _ _ _ _ _ _ _ _ _ _ _ _ _ _ _
    (pyInt_intRepr r.millis) p1 p2 p3 p4 p5 p6 p7 p8

/-- C5 counterexample: the record parsed from the valid 9-field line
`"0,0.1234567,0,0,0,0,0,0,0"` (i.e. `ax = 0.1234567`) does not survive
the round-trip: `%.6f` formatting rounds `ax` to `0.123457`, so parsing
the formatted row yields a different record. -/
theorem c5_counterexample_roundtrip :
    parse_csv (_format_csv_row
        ⟨0, 1234567 / 10 ^ 7, 0, 0, 0, 0, 0, 0, 0⟩) ≠
      some ⟨0, 1234567 / 10 ^ 7, 0, 0, 0, 0, 0, 0, 0⟩ := by
  have hround : round ((1234567 : ℚ) / 10 ^ 7 * 10 ^ 6) = 123457 := by
    have harg : ((1234567 : ℚ) / 10 ^ 7 * 10 ^ 6) = 1234567 / 10 := by
      norm_num
    rw [harg, round_eq, Int.floor_eq_iff]
    norm_num
  have hfmt : _format_csv_row ⟨0, 1234567 / 10 ^ 7, 0, 0, 0, 0, 0, 0, 0⟩ =
      _format_csv_row ⟨0, 123457 / 10 ^ 6, 0, 0, 0, 0, 0, 0, 0⟩ := by
    rw [_format_csv_row, _format_csv_row]
    have hax : formatFixed 6 ((1234567 : ℚ) / 10 ^ 7) =
        formatFixed 6 ((123457 : ℚ) / 10 ^ 6) := by
      rw [formatFixed, formatFixed, hround]
      have : round ((123457 : ℚ) / 10 ^ 6 * 10 ^ 6) = 123457 := by
        rw [div_mul_cancel₀ _ (by norm_num : ((10 : ℚ) ^ 6) ≠ 0)]
        exact_mod_cast round_intCast (α := ℚ) 123457
      rw [this]
    rw [hax]
  rw [hfmt]
  have hgood : parse_csv (_format_csv_row
      ⟨0, 123457 / 10 ^ 6, 0, 0, 0, 0, 0, 0, 0⟩) =
      some ⟨0, 123457 / 10 ^ 6, 0, 0, 0, 0, 0, 0, 0⟩ :=
    parse_csv_format_row _
      ⟨123457, by norm_num⟩ ⟨0, by norm_num⟩ ⟨0, by norm_num⟩
      ⟨0, by norm_num⟩ ⟨0, by norm_num⟩ ⟨0, by norm_num⟩
      ⟨0, by norm_num⟩ ⟨0, by norm_num⟩
  rw [hgood]
  intro hcontra
  have := Option.some.inj hcontra
  have hax_ne : (123457 : ℚ) / 10 ^ 6 ≠ 1234567 / 10 ^ 7 := by
    intro h
    rw [div_eq_div_iff (by norm_num) (by norm_num)] at h
    norm_num at h
  exact hax_ne (congrArg ImuRow.ax this)

/-- C5 (amended): the round-trip `parse(format(record)) == record` holds
for every record whose motion fields are integer multiples of `10⁻⁶` and
whose temperature and audio fields are integer multiples of `10⁻²` and
`10⁻³` respectively — i.e. the values exactly representable at the fixed
output precision.  A record carrying more fractional precision (the
counterexample) is altered by formatting. -/
theorem c5_roundtrip_amended :
    ∀ r : ImuRow,
      (∃ k : ℤ, r.ax = (k : ℚ) / 10 ^ 6) →
      (∃ k : ℤ, r.ay = (k : ℚ) / 10 ^ 6) →
      (∃ k : ℤ, r.az = (k : ℚ) / 10 ^ 6) →
      (∃ k : ℤ, r.gx = (k : ℚ) / 10 ^ 6) →
      (∃ k : ℤ, r.gy = (k : ℚ) / 10 ^ 6) →
      (∃ k : ℤ, r.gz = (k : ℚ) / 10 ^ 6) →
      (∃ k : ℤ, r.tempC = (k : ℚ) / 10 ^ 2) →
      (∃ k : ℤ, r.audioRMS = (k : ℚ) / 10 ^ 3) →
      parse_csv (_format_csv_row r) = some r := by
  intro r h1 h2 h3 h4 h5 h6 h7 h8
  exact parse_csv_format_row r h1 h2 h3 h4 h5 h6 h7 h8

/-- Witness for C5 (amended) at a concrete exactly-representable record. -/
theorem c5_roundtrip_amended_witness :
    parse_csv (_format_csv_row ⟨42, 1 / 2, -3 / 4, 0, 1, 0, 0, 1 / 4, 1 / 8⟩) =
      some ⟨42, 1 / 2, -3 / 4, 0, 1, 0, 0, 1 / 4, 1 / 8⟩ :=
  c5_roundtrip_amended ⟨42, 1 / 2, -3 / 4, 0, 1, 0, 0, 1 / 4, 1 / 8⟩
    ⟨500000, by norm_num⟩ ⟨-750000, by norm_num⟩ ⟨0, by norm_num⟩
    ⟨1000000, by norm_num⟩ ⟨0, by norm_num⟩ ⟨0, by norm_num⟩
    ⟨25, by norm_num⟩ ⟨125, by norm_num⟩

/-! ## FrameAssembler (ble_receiver.py, `_parse_line_from_buffer` and the
handler built by `_create_notification_handler`)

Bytes are modelled as `Nat` (the values in use are < 256).  Logging and
the one-shot `debug_hex_dumped` flag affect no observable output and are
elided.  `_parse_line_from_buffer` searches for the earliest delimiter
(the Python code takes the minimum over the first occurrence of each
delimiter byte, which is the first position holding any delimiter byte),
handles CRLF as a two-byte delimiter, strips trailing CRs from the
extracted line, decodes it strictly as UTF-8, and discards empty or
whitespace/comma-only lines as noise — returning `None` both in the
discard cases and when no delimiter is present.  The handler loop
(`while True: text = parse(); if text is None: break; queue.put(text)`)
is `drainLoop`: it stops at the first `None`, even when further complete
lines remain in the buffer.  Each continuing iteration consumes at least
one byte, so `length + 1` iterations always suffice; `drain` runs the
loop with that bound. -/

/-- The supported delimiter bytes: LF, CR, NUL, RS, US, GS, ETX, EOT. -/
def delimiterBytes : List Nat :=
  [10, 13, 0, 0x1e, 0x1f, 0x1d, 3, 4]

/-- Is this byte a line delimiter? -/
def isDelimiter (b : Nat) : Bool :=
  b ∈ delimiterBytes

/-- Index of the earliest delimiter byte (Python: minimum over
`buffer.find(token)` for each delimiter token). -/
def findDelimIdx : List Nat → Option Nat
  | [] => none
  | b :: t => if isDelimiter b then some 0 else (findDelimIdx t).map (· + 1)

/-- Strict UTF-8 decoding (`bytes.decode("utf-8", errors="strict")`):
rejects truncated or out-of-place continuation bytes, overlong
encodings, surrogates, and code points above U+10FFFF. -/
def utf8Decode : List Nat → Option (List Char)
  | [] => some []
  | b0 :: l =>
    if b0 < 0x80 then (utf8Decode l).map (fun cs => Char.ofNat b0 :: cs)
    else if b0 < 0xC2 then none
    else if b0 < 0xE0 then
      match l with
      | b1 :: l1 =>
        if 0x80 ≤ b1 ∧ b1 < 0xC0 then
          (utf8Decode l1).map
            (fun cs => Char.ofNat ((b0 - 0xC0) * 0x40 + (b1 - 0x80)) :: cs)
        else none
      | [] => none
    else if b0 < 0xF0 then
      match l with
      | b1 :: b2 :: l2 =>
        if (0x80 ≤ b1 ∧ b1 < 0xC0) ∧ (0x80 ≤ b2 ∧ b2 < 0xC0) ∧
            (b0 = 0xE0 → 0xA0 ≤ b1) ∧ (b0 = 0xED → b1 < 0xA0) then
          (utf8Decode l2).map
            (fun cs => Char.ofNat
              ((b0 - 0xE0) * 0x1000 + (b1 - 0x80) * 0x40 + (b2 - 0x80)) :: cs)
        else none
      | _ => none
    else if b0 < 0xF5 then
      match l with
      | b1 :: b2 :: b3 :: l3 =>
        if (0x80 ≤ b1 ∧ b1 < 0xC0) ∧ (0x80 ≤ b2 ∧ b2 < 0xC0) ∧
            (0x80 ≤ b3 ∧ b3 < 0xC0) ∧
            (b0 = 0xF0 → 0x90 ≤ b1) ∧ (b0 = 0xF4 → b1 < 0x90) then
          (utf8Decode l3).map
            (fun cs => Char.ofNat
              ((b0 - 0xF0) * 0x40000 + (b1 - 0x80) * 0x1000 +
                (b2 - 0x80) * 0x40 + (b3 - 0x80)) :: cs)
        else none
      | _ => none
    else none

/-- `text.strip() == "" or text.replace(",", "").strip() == ""`. -/
def isNoiseLine (t : List Char) : Bool :=
  trimChars t = [] ∨ trimChars (t.filter (fun c => !(c = ','))) = []

/-- `_parse_line_from_buffer(buffer)`: result line (or `None`) together
with the buffer contents after the call (the Python function mutates the
buffer in place). -/
def _parse_line_from_buffer (buffer : List Nat) :
    Option (List Char) × List Nat :=
  match findDelimIdx buffer with
  | none =>
    (none,
      if 64 * 1024 < buffer.length then
        buffer.drop (buffer.length - 64 * 1024)
      else buffer)
  | some idx =>
    let consume :=
      if buffer[idx]? = some 13 ∧ buffer[idx + 1]? = some 10 then 2 else 1
    let raw := ((buffer.take idx).reverse.dropWhile (fun b => b = 13)).reverse
    let rest := buffer.drop (idx + consume)
    match utf8Decode raw with
    | none => (none, rest)
    | some text =>
      if isNoiseLine text then (none, rest) else (some text, rest)

/-- The handler's extraction loop, with an explicit iteration bound. -/
def drainLoop : Nat → List Nat → List (List Char) × List Nat
  | 0, buffer => ([], buffer)
  | fuel + 1, buffer =>
    match _parse_line_from_buffer buffer with
    | (none, rest) => ([], rest)
    | (some text, rest) =>
      let r := drainLoop fuel rest
      (text :: r.1, r.2)

/-- One notification callback's worth of line extraction. -/
def drain (buffer : List Nat) : List (List Char) × List Nat :=
  drainLoop (buffer.length + 1) buffer

/-- The handler for one notification: extend the shared buffer with the
fragment, then drain complete lines onto the queue. -/
def feedFragment (st : List (List Char) × List Nat) (frag : List Nat) :
    List (List Char) × List Nat :=
  ((st.1 ++ (drain (st.2 ++ frag)).1), (drain (st.2 ++ frag)).2)

/-- Feed a sequence of notification fragments to a fresh assembler; the
first component is the sequence of emitted lines, the second the residual
buffer. -/
def feedAll (frags : List (List Nat)) : List (List Char) × List Nat :=
  frags.foldl feedFragment ([], [])

/-- C3 fails on the code: feeding `b"\na\n"` whole emits no lines — the
leading empty (noise) line is consumed but reported as `None`, which
terminates the handler's extraction loop and strands the complete line
`b"a\n"` in the buffer — while feeding the same bytes as the fragments
`b"\n"`, `b"a\n"` emits the line `"a"`.  The two feeds therefore differ,
contradicting the split-invariance the specification states and the
docstring's contract that `None` means no complete line is available. -/
theorem c3_split_invariance_failing_input :
    (feedAll [[10, 97, 10]]).1 = [] ∧
    (feedAll [[10, 97, 10]]).2 = [97, 10] ∧
    (feedAll [[10], [97, 10]]).1 = [['a']] ∧
    (feedAll [[10], [97, 10]]).2 = [] := by
  decide

/-! ## RecordingPipeline (data_recorder.py, `RecordFileWriter` and
`RecordingWorkerThread`)

`RecordFileWriter` is modelled by its observable state: the flush
threshold (`buffer_size`, default 100), the in-memory `write_buffer` of
formatted lines, the lines already written to the file, and
`_sample_count`.  `open()` writes the header; `append_rows` formats each
sample, counts it, and flushes once the write buffer reaches
`buffer_size`; `close()` flushes the remainder and reports
`total_samples = _sample_count` in the session metadata.

`RecordingWorkerThread.run` initialises its read position to
`buffer.current_write_index` **at the moment the thread starts** and then
polls `get_since_index`, appending any new samples and advancing the
index.  `recordScenario` replays the claim's scenario in the quiescent
schedule the claim implies: `xs` appended, recording started (worker
index initialised), `ys` appended, one worker poll covering them (by the
exactness of `get_since_index`, any interleaved sequence of polls writes
the same rows), stop and close. -/

structure RecordFileWriter where
  buffer_size : Nat
  write_buffer : List (List Char)
  file_lines : List (List Char)
  sample_count : Nat
deriving Repr

/-- The CSV header written by `RecordFileWriter.open`. -/
def headerLine : List Char :=
  ("millis,ax,ay,az,gx,gy,gz,tempC,audioRMS\n").toList

/-- A freshly opened writer (default `buffer_size = 100`). -/
def openWriter : RecordFileWriter :=
  { buffer_size := 100, write_buffer := [], file_lines := [headerLine],
    sample_count := 0 }

/-- `RecordFileWriter._flush_internal`. -/
def flushWriter (w : RecordFileWriter) : RecordFileWriter :=
  { w with file_lines := w.file_lines ++ w.write_buffer, write_buffer := [] }

/-- `RecordFileWriter.append_rows(samples)`. -/
def append_rows (w : RecordFileWriter) (samples : List ImuRow) :
    RecordFileWriter :=
  let w' := { w with
    write_buffer := w.write_buffer ++ samples.map _format_csv_row,
    sample_count := w.sample_count + samples.length }
  if w.buffer_size ≤ w'.write_buffer.length then flushWriter w' else w'

/-- `RecordFileWriter.close()`: final file contents and the
`total_samples` figure recorded in `SessionInfo` / the metadata file. -/
def closeWriter (w : RecordFileWriter) : List (List Char) × Nat :=
  ((flushWriter w).file_lines, (flushWriter w).sample_count)

/-- One iteration of the worker loop: poll `get_since_index`; if there
are new samples, append them and advance the read index. -/
def workerPoll (b : DataBuffer ImuRow) (last : Nat) (w : RecordFileWriter) :
    Nat × RecordFileWriter :=
  let res := (b.get_since_index last).1
  if res.1.isEmpty then (last, w)
  else (res.2.1, append_rows w res.1)

/-- The end-to-end scenario of the claim: append `xs` to a fresh
capacity-`m` buffer, start recording (the worker initialises its read
index to the current write index), append `ys`, let the worker poll, then
stop and close.  Returns the file lines and the reported total samples. -/
def recordScenario (m : Nat) (xs ys : List ImuRow) :
    List (List Char) × Nat :=
  let b0 := DataBuffer.appendAll (DataBuffer.mkBuffer m) xs
  let last0 := b0.current_write_index
  let b1 := DataBuffer.appendAll b0 ys
  closeWriter (workerPoll b1 last0 openWriter).2

theorem appendAll_appendAll {α : Type} (b : DataBuffer α) (l1 l2 : List α) :
    DataBuffer.appendAll (DataBuffer.appendAll b l1) l2 =
      DataBuffer.appendAll b (l1 ++ l2) := by
  simp [DataBuffer.appendAll, List.foldl_append]

/-- What the scenario produces, as long as nothing is evicted: the file
holds the header plus exactly the rows appended after the recording
started, and `total_samples` counts exactly those rows. -/
theorem recordScenario_spec (m : Nat) (xs ys : List ImuRow)
    (hcap : xs.length + ys.length ≤ m) :
    recordScenario m xs ys =
      (headerLine :: ys.map _format_csv_row, ys.length) := by
  rw [recordScenario]
  have hb1 : DataBuffer.appendAll
      (DataBuffer.appendAll (DataBuffer.mkBuffer m) xs) ys =
      DataBuffer.ofHistory m (xs ++ ys) := by
    rw [appendAll_appendAll]; rfl
  have hwidx : (DataBuffer.appendAll (DataBuffer.mkBuffer m) xs :
      DataBuffer ImuRow).current_write_index = xs.length :=
    DataBuffer.ofHistory_write_index m xs
  have hbase : (DataBuffer.ofHistory m (xs ++ ys) :
      DataBuffer ImuRow).base_index ≤ xs.length := by
    rw [DataBuffer.ofHistory_base_index]
    simp only [List.length_append]
    omega
  have hsince := get_since_ofHistory_of_ge (α := ImuRow) m (xs ++ ys)
    (j := xs.length) hbase
  rw [workerPoll, hb1, hwidx, hsince]
  simp only [List.drop_left]
  rcases List.eq_nil_or_concat ys with rfl | _
  · simp [closeWriter, flushWriter, openWriter]
  · have hne : ys ≠ [] := by
      rintro rfl
      simp at *
    have hie : (ys.isEmpty) = false := by
      rw [List.isEmpty_eq_false]
      exact hne
    simp only [hie, Bool.false_eq_true, if_false]
    rw [append_rows]
    simp only [openWriter]
    split_ifs with hflush
    · simp [closeWriter, flushWriter]
    · simp [closeWriter, flushWriter]

/-- The all-zero sample, used as a concrete record. -/
def zeroRow : ImuRow :=
  ⟨0, 0, 0, 0, 0, 0, 0, 0, 0⟩

/-- C2 counterexample: in the claim's scenario — 250 records appended,
recording started, 100 more appended, recording stopped — the file
contains 100 data rows plus the header (101 lines) and the metadata
reports `totalSamples = 100`, not 350: `RecordingWorkerThread.run`
initialises its read index to the write index current at start, so the
250 records already in the buffer are never written. -/
theorem c2_counterexample_total_samples :
    (recordScenario 1000 (List.replicate 250 zeroRow)
      (List.replicate 100 zeroRow)).2 = 100 ∧
    (recordScenario 1000 (List.replicate 250 zeroRow)
      (List.replicate 100 zeroRow)).1.length = 101 ∧
    ¬ ((recordScenario 1000 (List.replicate 250 zeroRow)
      (List.replicate 100 zeroRow)).2 = 350) := by
  have h := recordScenario_spec 1000 (List.replicate 250 zeroRow)
    (List.replicate 100 zeroRow)
    (by simp only [List.length_replicate]; norm_num)
  rw [h]
  refine ⟨rfl, by simp only [List.length_cons, List.length_map,
    List.length_replicate], by norm_num⟩

/-- C2 (amended): appending 250 records, starting a recording session,
appending 100 more and stopping produces a file of exactly 100 data rows
(the records appended after the session started, in order) plus one
header row, and metadata `totalSamples = 100` — the worker's read index
starts at the write index current when recording begins, so pre-existing
buffer contents are not recorded. -/
theorem c2_recording_scenario_amended :
    ∀ xs ys : List ImuRow, xs.length = 250 → ys.length = 100 →
      (recordScenario 1000 xs ys).1 =
        headerLine :: ys.map _format_csv_row ∧
      (recordScenario 1000 xs ys).1.length = 101 ∧
      (recordScenario 1000 xs ys).2 = 100 := by
  intro xs ys hx hy
  have h := recordScenario_spec 1000 xs ys (by omega)
  rw [h]
  refine ⟨rfl, by simp [hy], by rw [hy]⟩

/-- Witness for C2 (amended) at concrete record lists. -/
theorem c2_recording_scenario_amended_witness :
    (recordScenario 1000 (List.replicate 250 zeroRow)
      (List.replicate 100 zeroRow)).1.length = 101 ∧
    (recordScenario 1000 (List.replicate 250 zeroRow)
      (List.replicate 100 zeroRow)).2 = 100 :=
  ⟨(c2_recording_scenario_amended (List.replicate 250 zeroRow)
      (List.replicate 100 zeroRow) (List.length_replicate 250 zeroRow)
      (List.length_replicate 100 zeroRow)).2.1,
   (c2_recording_scenario_amended (List.replicate 250 zeroRow)
      (List.replicate 100 zeroRow) (List.length_replicate 250 zeroRow)
      (List.length_replicate 100 zeroRow)).2.2⟩
